import Mathlib

/-!
Verification of the dota-updates pipeline: the markup transcoder
(`process_body`, `restore_links`), the chunked dispatcher (`send_chunks`),
and the snapshot comparison / file cycle (`compare_json_files`, `file_work`,
`handle_message`).  Strings are modelled as `List Char`; every regex of the
source is embedded as an explicit left-to-right scanner with the exact
semantics of the `regex` crate patterns used (`.` does not match a newline,
`replace_all` rewrites the leftmost non-overlapping matches).
-/

namespace DotaBot

/-- Scan for the non-greedy closer of a `.*?` regex block: returns the
remainder after the first occurrence of `closer`, provided no newline occurs
before it (the regex `.` does not match `\n`). -/
def findCloser (closer : List Char) : List Char → Option (List Char)
  | [] => none
  | c :: rest =>
    if closer.isPrefixOf (c :: rest) then some ((c :: rest).drop closer.length)
    else if c = '\n' then none
    else findCloser closer rest

/-- One `Regex::replace_all` pass for a pattern `opener.*?closer` (non-greedy,
`.` excluding newline), replacing every match by `repl`, scanning left to
right.  `fuel` bounds the number of scanning steps; each step consumes at
least one input character, so `fuel = input length` is exact. -/
def replaceBlocks (opener closer repl : List Char) : Nat → List Char → List Char
  | 0, s => s
  | _ + 1, [] => []
  | fuel + 1, c :: rest =>
    if opener.isPrefixOf (c :: rest) then
      match findCloser closer ((c :: rest).drop opener.length) with
      | some after => repl ++ replaceBlocks opener closer repl fuel after
      | none => c :: replaceBlocks opener closer repl fuel rest
    else c :: replaceBlocks opener closer repl fuel rest

/-- `replaceBlocks` run with exactly enough fuel for its input. -/
def replaceBlocksF (opener closer repl s : List Char) : List Char :=
  replaceBlocks opener closer repl s.length s

/-- One `str::replace` pass: rewrite every non-overlapping occurrence of
`pat` (nonempty) by `repl`, left to right. -/
def replaceAll (pat repl : List Char) : Nat → List Char → List Char
  | 0, s => s
  | _ + 1, [] => []
  | fuel + 1, c :: rest =>
    if pat.isPrefixOf (c :: rest) then
      repl ++ replaceAll pat repl fuel ((c :: rest).drop pat.length)
    else c :: replaceAll pat repl fuel rest

/-- Match of the link regex `\[url=([^]]+)]([^\[]+)\[/url]` at the current
position: returns `(target, label, rest)` on success.  The target is the
maximal nonempty run of non-`]` characters after `[url=`; the label is the
maximal nonempty run of non-`[` characters after the `]`, which must be
followed immediately by `[/url]`. -/
def tryUrlMatch (s : List Char) : Option (List Char × List Char × List Char) :=
  if ("[url=".data).isPrefixOf s then
    let s1 := s.drop 5
    let target := s1.takeWhile (fun c => c ≠ ']')
    if target.isEmpty then none
    else
      match s1.drop target.length with
      | ']' :: s3 =>
        let label := s3.takeWhile (fun c => c ≠ '[')
        if label.isEmpty then none
        else
          let s4 := s3.drop label.length
          if ("[/url]".data).isPrefixOf s4 then some (target, label, s4.drop 6)
          else none
      | _ => none
  else none

/-- The `re_url.replace_all` pass that records each full link fragment and
substitutes the positional placeholder `SomeReplacement<index>` (index =
number of fragments recorded before it). -/
def extractUrls : Nat → List Char → List (List Char) → List Char × List (List Char)
  | 0, s, acc => (s, acc)
  | _ + 1, [], acc => ([], acc)
  | fuel + 1, c :: rest, acc =>
    match tryUrlMatch (c :: rest) with
    | some (target, label, after) =>
      let frag := "[url=".data ++ target ++ [']'] ++ label ++ "[/url]".data
      let placeholder := "SomeReplacement".data ++ (Nat.repr acc.length).data
      let r := extractUrls fuel after (acc ++ [frag])
      (placeholder ++ r.1, r.2)
    | none =>
      let r := extractUrls fuel rest acc
      (c :: r.1, r.2)

/-- The final `re_url.replace_all(.., "[$2]($1)")` pass rewriting every link
construct into the target hyperlink form. -/
def rewriteUrls : Nat → List Char → List Char
  | 0, s => s
  | _ + 1, [] => []
  | fuel + 1, c :: rest =>
    match tryUrlMatch (c :: rest) with
    | some (target, label, after) =>
      '[' :: label ++ [']', '('] ++ target ++ [')'] ++ rewriteUrls fuel after
    | none => c :: rewriteUrls fuel rest

/-- The ordered list of literal `String::replace` substitutions of
`process_body` (heading closers, list tags, bullets, strike, leftover
video-preview closer), in source order. -/
def structuralReplacements : List (List Char × List Char) :=
  [("[/h1]".data, "*".data), ("[\\/h1]".data, "*".data),
   ("[/h2]".data, "*".data), ("[\\/h2]".data, "*".data),
   ("[/h3]".data, "*".data), ("[\\/h3]".data, "*".data),
   ("[/h5]".data, "*".data), ("[\\/h5]".data, "*".data),
   ("[list]".data, "".data), ("[/list]".data, "".data),
   ("[*][b]".data, "🔸*".data), ("[\\/b]".data, "*".data),
   ("[*]".data, "📌".data), ("[strike]".data, "~".data),
   ("[\\/strike]".data, "~".data), ("[\\/previewyoutube]".data, "".data)]

/-- Apply the literal substitutions in order. -/
def applyReplacements (t : List Char) : List Char :=
  structuralReplacements.foldl (fun acc pr => replaceAll pr.1 pr.2 acc.length acc) t

/-- The special-character set escaped by the transcoder
(`_ * ( ) ~ backtick > # - | brace brace . !`); the backslash itself is not
in the set. -/
def special_chars : List Char := "_*()~`>#-|\x7b\x7d.!".data

/-- The character-by-character escaping pass: each special character is
prefixed by a backslash. -/
def escapeChars : List Char → List Char
  | [] => []
  | c :: rest =>
    (if special_chars.contains c then ['\\', c] else [c]) ++ escapeChars rest

/-- `restore_links`: for each recorded fragment, in recorded order, replace
every occurrence of the substring `SomeReplacement<index>` with the original
fragment (plain substring replacement, exactly as `str::replace`). -/
def restore_links : Nat → List (List Char) → List Char → List Char
  | _, [], t => t
  | i, f :: fs, t =>
    restore_links (i + 1) fs
      (replaceAll ("SomeReplacement".data ++ (Nat.repr i).data) f t.length t)

/-- The fixed notice substituted for `[previewyoutube...]` markers. -/
def previewNotice : List Char :=
  "(This update contains video. To watch the video, go to the official website.)".data

/-- The transcoder `process_body`, pass by pass in source order: remove
single-line `[table]...[/table]` blocks, remove `[img]...[\/img]` blocks,
replace `[previewyoutube...]` markers with a notice, extract link constructs
into placeholders, apply the literal substitutions, escape special
characters, restore the link fragments, and rewrite links into
`[LABEL](TARGET)` form. -/
def processBodyL (body : List Char) : List Char :=
  let t1 := replaceBlocksF "[table]".data "[/table]".data [] body
  let t2 := replaceBlocksF "[img]".data "[\\/img]".data [] t1
  let t3 := replaceBlocksF "[previewyoutube".data "]".data previewNotice t2
  let t4 := extractUrls t3.length t3 []
  let t5 := applyReplacements t4.1
  let t6 := escapeChars t5
  let t7 := restore_links 0 t4.2 t6
  rewriteUrls t7.length t7

/-- String-level wrapper of the transcoder. -/
def process_body (s : String) : String := ⟨processBodyL s.data⟩

/-- The chunk split of `send_chunks`: `msg.chars().collect::<Vec<_>>().chunks(4000)`,
i.e. successive segments of `k` characters, the last one possibly shorter;
an empty input yields no chunks.  `fuel = input length` is enough since each
step consumes at least one character (`k > 0`). -/
def chunksOf (k : Nat) : Nat → List Char → List (List Char)
  | _, [] => []
  | 0, s => [s]
  | fuel + 1, c :: rest => (c :: rest).take k :: chunksOf k fuel ((c :: rest).drop k)

/-- The ordered list of chunks dispatched by `send_chunks` for a message. -/
def send_chunks (m : List Char) : List (List Char) := chunksOf 4000 m.length m

/-- Deliver the chunks in order through a message sink, stopping at the
first failure; returns the number of chunks sent successfully. -/
def dispatchChunks (sink : List Char → Bool) : List (List Char) → Except String Nat
  | [] => .ok 0
  | c :: cs =>
    if sink c then (dispatchChunks sink cs).map (· + 1)
    else .error "Failed to send message"

/-- The serde_json values this program manipulates: the persisted snapshot
(an array of headline strings), string event bodies, and non-string bodies
(collapsed to `nullv`).  Equality is structural, as for `serde_json::Value`. -/
inductive JValue where
  | nullv : JValue
  | str : String → JValue
  | strArr : List String → JValue
deriving DecidableEq

/-- `as_str` on a JSON value: `some` exactly for strings. -/
def JValue.asStr : JValue → Option String
  | .str s => some s
  | _ => none

/-- The JSON value written by `write_headlines_to_json_file`: the serde
serialization of the headline vector is a JSON array of strings, and
`parse_json` recovers exactly that value (serde round-trip), so file
contents are modelled at the value level. -/
def serializeHeadlines (hs : List String) : JValue := .strArr hs

/-- `compare_json_files`: reading a missing file fails with an error string;
otherwise the parsed values are compared structurally (`Ok(v1 == v2)`). -/
def compare_json_files (file1 file2 : Option JValue) : Except String Bool :=
  match file1 with
  | none => .error "Failed to read file temp_new.json"
  | some v1 =>
    match file2 with
    | none => .error "Failed to read file temp_old.json"
    | some v2 => .ok (decide (v1 = v2))

/-- The Differ's verdict on two present snapshots: changed iff the parsed
values differ structurally. -/
def has_changed (s t : List String) : Bool :=
  !(decide (serializeHeadlines s = serializeHeadlines t))

/-- The two file slots of the cycle: `temp_new.json` (candidate) and
`temp_old.json` (current persisted snapshot); `none` means the file is
absent. -/
structure FsState where
  tempNew : Option JValue
  tempOld : Option JValue
deriving DecidableEq

/-- Outcome of one `file_work` cycle: the task panics (an `expect` fired),
or the cycle completes with a final file state and a flag recording whether
`send_first_upd` was invoked. -/
inductive CycleResult where
  | panicked : CycleResult
  | completed (st : FsState) (sent : Bool) : CycleResult
deriving DecidableEq

/-- One `file_work` cycle.  `fetchRes` is the result of
`read_page_to_json_str_headlines` (`none` = FetchError), `writeOk` whether
`write_headlines_to_json_file` succeeds.  Both are consumed with `.expect`,
so a failure panics.  Then the two JSON files are compared: equal → nothing;
different → `temp_old.json` is removed, `temp_new.json` renamed onto it and
the update is sent; a comparison error is printed and the cycle ends with no
state change and no send. -/
def file_work (fetchRes : Option (List String)) (writeOk : Bool) (st : FsState) :
    CycleResult :=
  match fetchRes with
  | none => .panicked
  | some hs =>
    if !writeOk then .panicked
    else
      let st1 : FsState := ⟨some (serializeHeadlines hs), st.tempOld⟩
      match compare_json_files st1.tempNew st1.tempOld with
      | .ok true => .completed st1 false
      | .ok false => .completed ⟨none, st1.tempNew⟩ true
      | .error _ => .completed st1 false

/-- The persisted current slot after a cycle (`none` when the cycle
panicked). -/
def persistedAfter : CycleResult → Option (Option JValue)
  | .panicked => none
  | .completed st _ => some st.tempOld

/-- An event's announcement body: a free-form JSON `body` and a string
`headline`. -/
structure AnnouncementBody where
  body : JValue
  headline : String
deriving DecidableEq

/-- One feed event. -/
structure Event where
  announcement_body : AnnouncementBody
deriving DecidableEq

/-- The delivery message composed by `handle_message`: empty unless a first
event exists and its body is a string, in which case the fixed preamble, the
headline and the transcoded body are combined. -/
def composeMessage (events : List Event) : List Char :=
  match events with
  | [] => []
  | e :: _ =>
    match e.announcement_body.body.asStr with
    | some b =>
      ("_*To see more updates and news follow this [link](https://www.dota2.com/news?l=english)*_\n\n*".data
        ++ e.announcement_body.headline.data ++ "*\n".data
        ++ processBodyL b.data ++ "\n\n".data)
    | none => []

/-- `handle_message` for a successfully fetched event list: composes the
message and dispatches its chunks through the sink, returning the number of
chunks sent on success. -/
def handle_message (sink : List Char → Bool) (events : List Event) :
    Except String Nat :=
  dispatchChunks sink (send_chunks (composeMessage events))

/-- A body with eleven link constructs, targets `0` … `10`. -/
def elevenLinkBody : String :=
  "[url=0]x[/url][url=1]x[/url][url=2]x[/url][url=3]x[/url][url=4]x[/url][url=5]x[/url][url=6]x[/url][url=7]x[/url][url=8]x[/url][url=9]x[/url][url=10]x[/url]"

/-- C1: for the input body `[url=https://example.com]Example[/url]` the
transcoder returns exactly `[Example](https://example.com)`: the link
construct is extracted, protected from escaping, and rewritten into the
target hyperlink form. -/
theorem c1_link_scenario :
    process_body "[url=https://example.com]Example[/url]"
      = "[Example](https://example.com)" := by
  decide

set_option maxRecDepth 40000 in
/-- C2: evaluation of the code at the failing input.  With eleven link
constructs, `restore_links` works by plain substring replacement and
`SomeReplacement1` is a prefix of `SomeReplacement10`, so the pass for
index 1 also rewrites placeholder 10: the output ends in `[x](1)0` (fragment
1 followed by a stray `0`) instead of `[x](10)`, contradicting the claim
that every placeholder is resolved back to exactly its own fragment. -/
theorem c2_restore_collision :
    process_body elevenLinkBody
        = "[x](0)[x](1)[x](2)[x](3)[x](4)[x](5)[x](6)[x](7)[x](8)[x](9)[x](1)0"
      ∧ process_body elevenLinkBody
        ≠ "[x](0)[x](1)[x](2)[x](3)[x](4)[x](5)[x](6)[x](7)[x](8)[x](9)[x](10)" := by
  constructor <;> decide

/-- C6 counterexample: a `[table]` block whose content spans two lines is
not removed (the regex `.` does not match a newline): the whole block,
table content included, survives to the final output. -/
theorem c6_multiline_table_cex :
    "a\nb".data <:+: processBodyL "[table]a\nb[/table]".data
      ∧ process_body "[table]a\nb[/table]" = "[table]a\nb[/table]" := by
  constructor <;> decide

/-- C7 counterexample: a block delimited by a literal `[img]` opener and a
literal `[/img]` closer is not removed — the img pattern only matches the
escaped-slash closer `[\/img]` — so the block survives verbatim. -/
theorem c7_literal_img_cex :
    process_body "[img]x[/img]" = "[img]x[/img]"
      ∧ "[img]x[/img]".data <:+: processBodyL "[img]x[/img]".data := by
  constructor <;> decide

/-- C8 counterexample: transcoding a second time double-escapes: the body
`.` transcodes to `\.`, and transcoding that output again yields `\\.` —
the original special character carries two backslashes, not exactly one,
because the backslash itself is not in the escape set. -/
theorem c8_double_escape_cex :
    process_body (process_body ".") = "\\\\." ∧ ("\\\\." : String) ≠ "\\." := by
  constructor <;> decide

/-- C4 counterexample: a cycle whose feed fetch fails does terminate the
task — the fetch result is consumed with `.expect`, which panics — so the
claim that no fetch failure is fatal is false at this input. -/
theorem c4_fetch_panics_cex :
    file_work none true ⟨none, none⟩ = CycleResult.panicked := by
  decide

/-- C5 counterexample: on a first run (no persisted snapshot, both slots
absent) with fetched headlines `["a"]`, the cycle does not establish a
baseline: the comparison fails on the missing old file, the error branch
only prints, and the persisted current slot after the cycle is still
absent rather than the newly fetched snapshot. -/
theorem c5_no_baseline_cex :
    persistedAfter (file_work (some ["a"]) true ⟨none, none⟩)
      ≠ some (some (serializeHeadlines ["a"])) := by
  decide

/-- With positive chunk size and enough fuel, the chunks concatenate back to
the input. -/
lemma chunksOf_flatten (k : Nat) (hk : 0 < k) :
    ∀ (fuel : Nat) (s : List Char), s.length ≤ fuel →
      (chunksOf k fuel s).flatten = s := by
  intro fuel
  induction fuel with
  | zero =>
    intro s hs
    have : s = [] := List.eq_nil_of_length_eq_zero (Nat.le_zero.mp hs)
    subst this
    rfl
  | succ f ih =>
    intro s hs
    cases s with
    | nil => rfl
    | cons c rest =>
      have hdrop : ((c :: rest).drop k).length ≤ f := by
        rw [List.length_drop]
        simp only [List.length_cons] at hs ⊢
        omega
      simp only [chunksOf, List.flatten_cons, ih _ hdrop, List.take_append_drop]

/-- With positive chunk size and enough fuel, every chunk is nonempty and of
length at most `k`. -/
lemma chunksOf_mem (k : Nat) (hk : 0 < k) :
    ∀ (fuel : Nat) (s : List Char), s.length ≤ fuel →
      ∀ c ∈ chunksOf k fuel s, c.length ≤ k ∧ c ≠ [] := by
  intro fuel
  induction fuel with
  | zero =>
    intro s hs
    have : s = [] := List.eq_nil_of_length_eq_zero (Nat.le_zero.mp hs)
    subst this
    intro c hc
    simp [chunksOf] at hc
  | succ f ih =>
    intro s hs
    cases s with
    | nil => intro c hc; simp [chunksOf] at hc
    | cons x rest =>
      intro c hc
      simp only [chunksOf, List.mem_cons] at hc
      rcases hc with rfl | hc
      · constructor
        · rw [List.length_take]; exact min_le_left _ _
        · have hlen : 0 < (List.take k (x :: rest)).length := by
            rw [List.length_take]
            simp only [List.length_cons]
            omega
          exact List.ne_nil_of_length_pos hlen
      · have hdrop : ((x :: rest).drop k).length ≤ f := by
          rw [List.length_drop]
          simp only [List.length_cons] at hs ⊢
          omega
        exact ih _ hdrop c hc

/-- C3: the chunk split used by `send_chunks` is lossless and bounded: the
chunks concatenate, in order, to exactly the input message; every chunk has
length at most 4000 and none is empty; an empty message yields zero chunks
(hence zero sends). -/
theorem c3_chunks_lossless (m : List Char) :
    (send_chunks m).flatten = m
      ∧ ((send_chunks m).all fun c => decide (c.length ≤ 4000) && !c.isEmpty)
          = true
      ∧ send_chunks ([] : List Char) = [] := by
  refine ⟨chunksOf_flatten 4000 (by omega) m.length m le_rfl, ?_, rfl⟩
  rw [List.all_eq_true]
  intro c hc
  have h := chunksOf_mem 4000 (by omega) m.length m le_rfl c hc
  simp only [Bool.and_eq_true, decide_eq_true_eq, Bool.not_eq_true']
  exact ⟨h.1, by simpa [List.isEmpty_iff] using h.2⟩

/-- C4 amended: a `FetchError` from the feed, or a `StorageError` on the
snapshot write, is fatal — `file_work` consumes both results with `.expect`,
panicking the task — whereas an error surfaced by the snapshot comparison
(for example a missing stored snapshot) is non-fatal: it is only printed and
the cycle completes normally without delivery, so only then does the loop
proceed to the next cycle. -/
theorem c4_fatal_policy :
    (∀ (writeOk : Bool) (st : FsState), file_work none writeOk st = .panicked)
      ∧ (∀ (hs : List String) (st : FsState),
          file_work (some hs) false st = .panicked)
      ∧ (∀ (hs : List String) (nw : Option JValue),
          file_work (some hs) true ⟨nw, none⟩
            = .completed ⟨some (serializeHeadlines hs), none⟩ false) :=
  ⟨fun _ _ => rfl, fun _ _ => rfl, fun _ _ => rfl⟩

/-- C5 amended: on a first run (the stored snapshot is absent, so its read
fails), a cycle with a successful fetch and write does not trigger any
delivery, but it also does not establish a baseline: the comparison error is
only printed, the persisted current slot stays absent, and the new snapshot
remains only in the candidate slot. -/
theorem c5_first_run_amended (hs : List String) (nw : Option JValue) :
    file_work (some hs) true ⟨nw, none⟩
        = .completed ⟨some (serializeHeadlines hs), none⟩ false
      ∧ persistedAfter (file_work (some hs) true ⟨nw, none⟩) = some none :=
  ⟨rfl, rfl⟩

/-- C9: snapshot comparison is structural and order-sensitive: a snapshot
compared against an identical ordered copy is unchanged; replacing any
single element by a different string, or changing the length, makes
`has_changed` true; and `compare_json_files` on the two present files
reports exactly the complement of `has_changed`. -/
theorem c9_diff_structural :
    (∀ s : List String, has_changed s s = false)
      ∧ (∀ (s : List String) (i : Nat) (x : String) (h : i < s.length),
          x ≠ s.get ⟨i, h⟩ → has_changed s (s.set i x) = true)
      ∧ (∀ s t : List String, s.length ≠ t.length → has_changed s t = true)
      ∧ (∀ s t : List String,
          compare_json_files (some (serializeHeadlines s))
              (some (serializeHeadlines t))
            = .ok (!has_changed s t)) := by
  refine ⟨fun s => by simp [has_changed], ?_, ?_, ?_⟩
  · intro s i x h hx
    have hne : s ≠ s.set i x := by
      intro he
      have hi : i < (s.set i x).length := by simpa using h
      have hq : s[i]? = (s.set i x)[i]? := by rw [← he]
      have h1 : s[i]? = some s[i] := List.getElem?_eq_getElem h
      have h2 : (s.set i x)[i]? = some x := by
        rw [List.getElem?_eq_getElem hi, List.getElem_set_self]
      rw [h1, h2] at hq
      exact hx (by simpa [List.get_eq_getElem] using (Option.some.inj hq).symm)
    simp [has_changed, serializeHeadlines, hne]
  · intro s t hlen
    have hne : s ≠ t := fun he => hlen (by rw [he])
    simp [has_changed, serializeHeadlines, hne]
  · intro s t
    simp [has_changed, compare_json_files, serializeHeadlines]

/-- C9 witness: changing one element of a concrete snapshot is detected. -/
theorem c9_diff_structural_witness :
    has_changed ["a", "b"] (List.set ["a", "b"] 1 "c") = true :=
  c9_diff_structural.2.1 ["a", "b"] 1 "c" (by decide) (by decide)

/-- C10: if the fetched events list is empty, or the first event's body is
not a string, the composed delivery message is empty, `send_chunks` produces
zero chunks (zero sends), and the message-handling step still succeeds. -/
theorem c10_nothing_deliverable (sink : List Char → Bool) (events : List Event)
    (h : events = []
      ∨ ∃ e es, events = e :: es ∧ e.announcement_body.body.asStr = none) :
    composeMessage events = []
      ∧ send_chunks (composeMessage events) = []
      ∧ handle_message sink events = .ok 0 := by
  have hm : composeMessage events = [] := by
    rcases h with rfl | ⟨e, es, rfl, hb⟩
    · rfl
    · simp [composeMessage, hb]
  refine ⟨hm, ?_, ?_⟩
  · rw [hm]; rfl
  · simp only [handle_message, hm]; rfl

/-- C10 witness: the empty feed composes an empty message, dispatches zero
chunks and succeeds. -/
theorem c10_nothing_deliverable_witness :
    composeMessage [] = []
      ∧ send_chunks (composeMessage []) = []
      ∧ handle_message (fun _ => true) [] = .ok 0 :=
  c10_nothing_deliverable (fun _ => true) [] (Or.inl rfl)

/-- The suffix returned by `findCloser` is no longer than its input. -/
lemma findCloser_length_le {closer : List Char} :
    ∀ {l after : List Char}, findCloser closer l = some after →
      after.length ≤ l.length := by
  intro l
  induction l with
  | nil => intro after h; simp [findCloser] at h
  | cons c rest ih =>
    intro after h
    rw [findCloser] at h
    split at h
    · have ha : after = (c :: rest).drop closer.length := (Option.some.inj h).symm
      subst ha
      rw [List.length_drop]
      omega
    · split at h
      · exact absurd h (by simp)
      · exact le_trans (ih h) (by simp)

/-- `replaceBlocks` does not depend on the fuel once the fuel covers the
input length. -/
lemma replaceBlocks_fuel {opener : List Char} (hop : opener ≠ [])
    (closer repl : List Char) :
    ∀ (f₁ : Nat) {f₂ : Nat} (s : List Char), s.length ≤ f₁ → s.length ≤ f₂ →
      replaceBlocks opener closer repl f₁ s
        = replaceBlocks opener closer repl f₂ s := by
  intro f₁
  induction f₁ with
  | zero =>
    intro f₂ s h₁ _
    have hs : s = [] := List.eq_nil_of_length_eq_zero (Nat.le_zero.mp h₁)
    subst hs
    cases f₂ <;> rfl
  | succ f ih =>
    intro f₂ s h₁ h₂
    cases s with
    | nil => cases f₂ <;> rfl
    | cons c rest =>
      cases f₂ with
      | zero => simp at h₂
      | succ g =>
        have hopl : 1 ≤ opener.length := by
          cases opener with
          | nil => exact absurd rfl hop
          | cons _ _ => simp
        simp only [List.length_cons, Nat.succ_le_succ_iff] at h₁ h₂
        simp only [replaceBlocks]
        by_cases hpre : opener.isPrefixOf (c :: rest) = true
        · rw [if_pos hpre, if_pos hpre]
          rcases hfc : findCloser closer ((c :: rest).drop opener.length)
            with _ | after
          · exact congrArg (c :: ·) (ih rest h₁ h₂)
          · have hlen : after.length ≤ rest.length := by
              have h3 := findCloser_length_le hfc
              rw [List.length_drop, List.length_cons] at h3
              omega
            exact congrArg (repl ++ ·) (ih after (le_trans hlen h₁) (le_trans hlen h₂))
        · rw [if_neg hpre, if_neg hpre]
          exact congrArg (c :: ·) (ih rest h₁ h₂)

/-- The scanner passes over a prefix containing no `[` when the opener
starts with `[`. -/
lemma replaceBlocksF_emit (op' closer repl : List Char) :
    ∀ (pre t : List Char), (∀ x ∈ pre, x ≠ '[') →
      replaceBlocksF ('[' :: op') closer repl (pre ++ t)
        = pre ++ replaceBlocksF ('[' :: op') closer repl t := by
  intro pre
  induction pre with
  | nil => intro t _; rfl
  | cons x pre' ih =>
    intro t hpre
    have hx : x ≠ '[' := hpre x (List.mem_cons_self _ _)
    have hnp : (('[' :: op').isPrefixOf (x :: (pre' ++ t))) = false := by
      simp only [List.isPrefixOf, Bool.and_eq_false_iff]
      exact Or.inl (by simpa using fun h => hx h.symm)
    simp only [List.cons_append, replaceBlocksF, List.length_cons, replaceBlocks]
    rw [if_neg (by simp [hnp])]
    exact congrArg (x :: ·) (ih t fun y hy => hpre y (List.mem_cons_of_mem _ hy))

/-- One scanning step over a position where the opener does not match. -/
lemma replaceBlocksF_step (opener closer repl : List Char) (c : Char)
    (t : List Char) (h : opener.isPrefixOf (c :: t) = false) :
    replaceBlocksF opener closer repl (c :: t)
      = c :: replaceBlocksF opener closer repl t := by
  simp only [replaceBlocksF, List.length_cons, replaceBlocks]
  rw [if_neg (by simp [h])]

/-- The scanner consumes a whole match: if the text starts with the opener
and `findCloser` finds the closer, the match is replaced by `repl` and
scanning resumes after it. -/
lemma replaceBlocksF_match (o : Char) (op' closer repl rest after : List Char)
    (hfc : findCloser closer rest = some after) :
    replaceBlocksF (o :: op') closer repl ((o :: op') ++ rest)
      = repl ++ replaceBlocksF (o :: op') closer repl after := by
  have hpre : ((o :: op').isPrefixOf ((o :: op') ++ rest)) = true :=
    List.isPrefixOf_iff_prefix.mpr (List.prefix_append _ _)
  have hdrop : ((o :: op') ++ rest).drop (o :: op').length = rest :=
    List.drop_left _ _
  have hlen : after.length ≤ (op' ++ rest).length := by
    have h3 := findCloser_length_le hfc
    rw [List.length_append]
    omega
  simp only [List.cons_append, List.append_eq, replaceBlocksF, List.length_cons,
    replaceBlocks]
  rw [if_pos (show ((o :: op').isPrefixOf (o :: (op' ++ rest))) = true from hpre)]
  have hdrop2 : List.drop (op'.length + 1) (o :: (op' ++ rest)) = rest := by
    rw [List.drop_succ_cons]
    exact List.drop_left _ _
  rw [hdrop2, hfc]
  exact congrArg (repl ++ ·)
    (replaceBlocks_fuel (by simp) closer repl _ after hlen le_rfl)

/-- `findCloser` skips characters that are neither `[` nor a newline when
the closer starts with `[`. -/
lemma findCloser_skip (cl' : List Char) :
    ∀ (c t : List Char), (∀ x ∈ c, x ≠ '[' ∧ x ≠ '\n') →
      findCloser ('[' :: cl') (c ++ t) = findCloser ('[' :: cl') t := by
  intro c
  induction c with
  | nil => intro t _; rfl
  | cons x c' ih =>
    intro t h
    have hx := h x (List.mem_cons_self _ _)
    rw [List.cons_append, findCloser]
    rw [if_neg (by simp [List.isPrefixOf]; exact fun h' => (hx.1 h'.symm).elim)]
    rw [if_neg hx.2]
    exact ih t fun y hy => h y (List.mem_cons_of_mem _ hy)

/-- `findCloser` succeeds immediately on the closer itself. -/
lemma findCloser_self (cl : List Char) (hcl : cl ≠ []) (t : List Char) :
    findCloser cl (cl ++ t) = some t := by
  cases cl with
  | nil => exact absurd rfl hcl
  | cons c cl' =>
    rw [List.cons_append, findCloser]
    rw [if_pos (show ((c :: cl').isPrefixOf (c :: (cl' ++ t))) = true from
      List.isPrefixOf_iff_prefix.mpr (List.prefix_append (c :: cl') t))]
    rw [show (c :: (cl' ++ t)).drop (c :: cl').length = t from
      List.drop_left (c :: cl') t]

/-- Bodies with the same residue after the table pass transcode equally. -/
lemma processBodyL_congr_table {s s' : List Char}
    (h : replaceBlocksF "[table]".data "[/table]".data [] s
        = replaceBlocksF "[table]".data "[/table]".data [] s') :
    processBodyL s = processBodyL s' := by
  simp only [processBodyL, replaceBlocksF] at h ⊢
  rw [h]

/-- Bodies with the same residue after the table and image passes transcode
equally. -/
lemma processBodyL_congr_img {s s' : List Char}
    (h : replaceBlocksF "[img]".data "[\\/img]".data []
           (replaceBlocksF "[table]".data "[/table]".data [] s)
        = replaceBlocksF "[img]".data "[\\/img]".data []
           (replaceBlocksF "[table]".data "[/table]".data [] s')) :
    processBodyL s = processBodyL s' := by
  simp only [processBodyL, replaceBlocksF] at h ⊢
  rw [h]

/-- C6 amended: a `[table]...[/table]` block whose content lies on a single
line (no newline) — and, so that the block is the match the scanner sees,
contains no `[` and is preceded by bracket-free text — is removed in full
before any escaping occurs, leaving no trace of the table content in the
output; blocks whose content spans multiple lines are not matched (the
pattern's `.` does not match a newline) and pass through. -/
theorem c6_singleline_table_amended (pre c post : List Char)
    (hpre : ∀ x ∈ pre, x ≠ '[') (hc : ∀ x ∈ c, x ≠ '[' ∧ x ≠ '\n') :
    processBodyL (pre ++ "[table]".data ++ c ++ "[/table]".data ++ post)
      = processBodyL (pre ++ post) := by
  have e1 : ("[table]".data : List Char) = '[' :: "table]".data := by decide
  have e2 : ("[/table]".data : List Char) = '[' :: "/table]".data := by decide
  apply processBodyL_congr_table
  rw [show pre ++ "[table]".data ++ c ++ "[/table]".data ++ post
      = pre ++ ("[table]".data ++ (c ++ ("[/table]".data ++ post))) by
    simp [List.append_assoc]]
  rw [e1, e2]
  rw [replaceBlocksF_emit "table]".data ('[' :: "/table]".data) [] pre _ hpre,
    replaceBlocksF_emit "table]".data ('[' :: "/table]".data) [] pre post hpre]
  congr 1
  rw [replaceBlocksF_match '[' "table]".data ('[' :: "/table]".data) []
    (c ++ (('[' :: "/table]".data) ++ post)) post ?_]
  · simp
  · rw [findCloser_skip "/table]".data c _ hc]
    exact findCloser_self ('[' :: "/table]".data) (by simp) post

/-- C6 amended, witness: a concrete single-line table block disappears. -/
theorem c6_singleline_table_amended_witness :
    ((∀ x ∈ "x.".data, x ≠ '[') ∧ (∀ x ∈ "a|b".data, x ≠ '[' ∧ x ≠ '\n'))
      ∧ processBodyL ("x.".data ++ "[table]".data ++ "a|b".data
            ++ "[/table]".data ++ "y!".data)
        = processBodyL ("x.".data ++ "y!".data) :=
  ⟨⟨by decide, by decide⟩,
    c6_singleline_table_amended "x.".data "a|b".data "y!".data
      (by decide) (by decide)⟩

/-- No position inside `pre` (with continuation `t`) starts a match of
`opener`. -/
def noMatchIn (opener : List Char) : List Char → List Char → Prop
  | [], _ => True
  | c :: rest, t =>
    (opener.isPrefixOf ((c :: rest) ++ t)) = false ∧ noMatchIn opener rest t

/-- The scanner emits a segment in which no position starts a match. -/
lemma replaceBlocksF_emit_of_noMatchIn (opener closer repl : List Char) :
    ∀ (pre t : List Char), noMatchIn opener pre t →
      replaceBlocksF opener closer repl (pre ++ t)
        = pre ++ replaceBlocksF opener closer repl t := by
  intro pre
  induction pre with
  | nil => intro t _; rfl
  | cons x pre' ih =>
    intro t h
    rw [List.cons_append, replaceBlocksF_step _ _ _ _ _
      (by simpa [List.cons_append] using h.1)]
    exact congrArg (x :: ·) (ih t h.2)

/-- A bracket-free segment has no match of an opener starting with `[`. -/
lemma noMatchIn_of_no_bracket (op' : List Char) :
    ∀ (pre t : List Char), (∀ x ∈ pre, x ≠ '[') →
      noMatchIn ('[' :: op') pre t := by
  intro pre
  induction pre with
  | nil => intro t _; trivial
  | cons x pre' ih =>
    intro t h
    refine ⟨?_, ih t fun y hy => h y (List.mem_cons_of_mem _ hy)⟩
    have hx : x ≠ '[' := h x (List.mem_cons_self _ _)
    simp only [List.cons_append, List.isPrefixOf, Bool.and_eq_false_iff]
    exact Or.inl (by simpa using fun h' => hx h'.symm)

/-- `noMatchIn` segments concatenate. -/
lemma noMatchIn_append (opener : List Char) :
    ∀ (p₁ p₂ t : List Char), noMatchIn opener p₁ (p₂ ++ t) →
      noMatchIn opener p₂ t → noMatchIn opener (p₁ ++ p₂) t := by
  intro p₁
  induction p₁ with
  | nil => intro p₂ t _ h₂; simpa using h₂
  | cons x p' ih =>
    intro p₂ t h₁ h₂
    refine ⟨?_, ih p₂ t h₁.2 h₂⟩
    have := h₁.1
    simpa [List.append_assoc] using this

/-- C7 amended: the image pattern's closer is the escaped-slash spelling
`[\/img]`, not a literal `[/img]`; a block delimited by `[img]` and `[\/img]`
(content on a single line, no `[`, preceded by bracket-free text) is removed
in full, while a block with a literal `[/img]` closer is left untouched. -/
theorem c7_escaped_img_amended (pre c post : List Char)
    (hpre : ∀ x ∈ pre, x ≠ '[') (hc : ∀ x ∈ c, x ≠ '[' ∧ x ≠ '\n') :
    processBodyL (pre ++ "[img]".data ++ c ++ "[\\/img]".data ++ post)
      = processBodyL (pre ++ post) := by
  have eio : ("[img]".data : List Char) = '[' :: "img]".data := by decide
  have eic : ("[\\/img]".data : List Char) = '[' :: "\\/img]".data := by decide
  have hcb : ∀ x ∈ c, x ≠ '[' := fun x hx => (hc x hx).1
  apply processBodyL_congr_img
  have hassoc : pre ++ "[img]".data ++ c ++ "[\\/img]".data ++ post
      = (pre ++ "[img]".data ++ c ++ "[\\/img]".data) ++ post := by
    simp [List.append_assoc]
  -- the table pass leaves the image block untouched
  have hT : replaceBlocksF "[table]".data "[/table]".data []
        ((pre ++ "[img]".data ++ c ++ "[\\/img]".data) ++ post)
      = (pre ++ "[img]".data ++ c ++ "[\\/img]".data)
          ++ replaceBlocksF "[table]".data "[/table]".data [] post := by
    apply replaceBlocksF_emit_of_noMatchIn
    have n1 : noMatchIn "[table]".data pre
        ("[img]".data ++ (c ++ ("[\\/img]".data ++ post))) := by
      rw [show ("[table]".data : List Char) = '[' :: "table]".data by decide]
      exact noMatchIn_of_no_bracket _ pre _ hpre
    have n2 : noMatchIn "[table]".data "[img]".data
        (c ++ ("[\\/img]".data ++ post)) := by
      rw [eio, show ("img]".data : List Char) = 'i' :: 'm' :: 'g' :: ']' :: [] by decide]
      refine ⟨by simp [List.isPrefixOf], ?_, ?_, ?_, ?_, trivial⟩ <;>
        simp [List.isPrefixOf]
    have n3 : noMatchIn "[table]".data c ("[\\/img]".data ++ post) := by
      rw [show ("[table]".data : List Char) = '[' :: "table]".data by decide]
      exact noMatchIn_of_no_bracket _ c _ hcb
    have n4 : noMatchIn "[table]".data "[\\/img]".data post := by
      rw [eic, show ("\\/img]".data : List Char)
          = '\\' :: '/' :: 'i' :: 'm' :: 'g' :: ']' :: [] by decide]
      refine ⟨by simp [List.isPrefixOf], ?_, ?_, ?_, ?_, ?_, ?_, trivial⟩ <;>
        simp [List.isPrefixOf]
    have n12 : noMatchIn "[table]".data (pre ++ "[img]".data)
        (c ++ ("[\\/img]".data ++ post)) :=
      noMatchIn_append _ pre "[img]".data _ n1 n2
    have n123 : noMatchIn "[table]".data ((pre ++ "[img]".data) ++ c)
        ("[\\/img]".data ++ post) :=
      noMatchIn_append _ (pre ++ "[img]".data) c _
        (by simpa [List.append_assoc] using n12) n3
    have n1234 : noMatchIn "[table]".data
        (((pre ++ "[img]".data) ++ c) ++ "[\\/img]".data) post :=
      noMatchIn_append _ ((pre ++ "[img]".data) ++ c) "[\\/img]".data _
        (by simpa [List.append_assoc] using n123) n4
    exact n1234
  rw [hassoc, hT,
    replaceBlocksF_emit "table]".data "[/table]".data [] pre post
      (by simpa using hpre)]
  -- the image pass removes the block on the left and nothing on the right
  rw [show (pre ++ "[img]".data ++ c ++ "[\\/img]".data)
        ++ replaceBlocksF "[table]".data "[/table]".data [] post
      = pre ++ ("[img]".data ++ (c ++ ("[\\/img]".data
          ++ replaceBlocksF "[table]".data "[/table]".data [] post))) by
    simp [List.append_assoc]]
  rw [eio, eic]
  rw [replaceBlocksF_emit "img]".data ('[' :: "\\/img]".data) [] pre _ hpre,
    replaceBlocksF_emit "img]".data ('[' :: "\\/img]".data) [] pre
      (replaceBlocksF "[table]".data "[/table]".data [] post) hpre]
  congr 1
  rw [replaceBlocksF_match '[' "img]".data ('[' :: "\\/img]".data) []
    (c ++ (('[' :: "\\/img]".data)
      ++ replaceBlocksF "[table]".data "[/table]".data [] post))
    (replaceBlocksF "[table]".data "[/table]".data [] post) ?_]
  · simp
  · rw [findCloser_skip "\\/img]".data c _ hc]
    exact findCloser_self ('[' :: "\\/img]".data) (by simp) _

/-- C8 amended: re-running the escaping pass does not add a backslash to
characters outside the special set, but the backslash itself is not in the
set, so each special character gains one more backslash per pass: after two
passes every original special character carries exactly two backslashes
(escaping is not idempotent); concretely, transcoding `\.` again gives
`\\.`. -/
theorem c8_escape_accumulates :
    (∀ s : List Char, escapeChars (escapeChars s)
        = s.flatMap fun ch =>
            if special_chars.contains ch then ['\\', '\\', ch] else [ch])
      ∧ process_body (process_body ".") = "\\\\." := by
  constructor
  · intro s
    induction s with
    | nil => rfl
    | cons ch rest ih =>
      have hbs : ¬ ('\\' ∈ special_chars) := by decide
      by_cases h : ch ∈ special_chars
      · simp [escapeChars, h, hbs, List.flatMap_cons, ih]
      · simp [escapeChars, h, List.flatMap_cons, ih]
  · decide

/-- C7 amended, witness: a concrete `[img]...[\/img]` block disappears. -/
theorem c7_escaped_img_amended_witness :
    ((∀ x ∈ "u".data, x ≠ '[') ∧ (∀ x ∈ "pic.png".data, x ≠ '[' ∧ x ≠ '\n'))
      ∧ processBodyL ("u".data ++ "[img]".data ++ "pic.png".data
            ++ "[\\/img]".data ++ "v*".data)
        = processBodyL ("u".data ++ "v*".data) :=
  ⟨⟨by decide, by decide⟩,
    c7_escaped_img_amended "u".data "pic.png".data "v*".data
      (by decide) (by decide)⟩

end DotaBot
